import Mathlib

/-!
Verification of the Tree/Preview Synchronization Engine of the
obsidian-file-tree-preview plugin, shallowly embedded from `src/main.ts`.

Folders and files of the external vault are identified by their unique
slash-delimited paths, modelled as lists of path segments; the parent of a
folder is obtained by dropping the last segment (`none` for the root `[]`).
Object identity (`===`) on vault entries coincides with path equality.
JavaScript `Array.prototype.sort` (stable since ES2019) is modelled by
`List.mergeSort`, and `String.prototype.localeCompare` by the total order
on Lean strings.
-/

namespace FileTreePreview

/-- The six sort orders of `type SortOrder` in `src/main.ts`. -/
inductive SortOrder where
  | nameAsc
  | nameDesc
  | modifiedNew
  | modifiedOld
  | createdNew
  | createdOld
deriving DecidableEq, Repr

/-- The three folder icon styles of `type FolderIconStyle` in `src/main.ts`. -/
inductive FolderIconStyle where
  | none
  | custom
  | folder
deriving DecidableEq, Repr

/-- Mirror of `interface FileTreePreviewData` in `src/main.ts`. -/
structure FileTreePreviewData where
  collapsedFolders : List String
  sortOrder : SortOrder
  treeWidth : Nat
  previewLines : Nat
  removeLinkBrackets : Bool
  activeOnLaunch : Bool
  compactMode : Bool
  useAccentColor : Bool
  showHoverEffect : Bool
  folderIconStyle : FolderIconStyle
deriving DecidableEq, Repr

/-- Mirror of `DEFAULT_DATA` in `src/main.ts`. -/
def DEFAULT_DATA : FileTreePreviewData :=
  { collapsedFolders := []
    sortOrder := .nameAsc
    treeWidth := 300
    previewLines := 4
    removeLinkBrackets := true
    activeOnLaunch := false
    compactMode := false
    useAccentColor := true
    showHoverEffect := false
    folderIconStyle := .custom }

/-!
## Render scheduler (`renderFileTree`, src/main.ts lines 430-444)

The view field `isRenderingTree` is a boolean latch.  `renderFileTree`
returns immediately when the latch is held; otherwise it sets the latch,
runs the render body (which awaits inside `renderFolder`, so other events
can interleave before it completes), and clears the latch in a `finally`
block, i.e. on the success path and on the error path alike.  We model the
view's scheduler state together with a counter of render bodies actually
started, and the two observable scheduler events: a `renderFileTree` call
arriving (`request`) and an in-flight render body finishing
(`complete success`, where `success = false` is the error path).
-/

/-- Scheduler state: the `isRenderingTree` latch plus a count of render
bodies that have actually begun executing. -/
structure RenderState where
  isRenderingTree : Bool
  rendersStarted : Nat
deriving DecidableEq, Repr

/-- Events seen by the tree-render scheduler: a `renderFileTree()` call,
or the completion of the in-flight render body (successfully or with an
error). -/
inductive TreeRenderEvent where
  | request
  | complete (success : Bool)
deriving DecidableEq, Repr

/-- One scheduler step, from `renderFileTree` (src/main.ts 430-444):
a `request` is dropped when the latch is held, otherwise it acquires the
latch and starts a render body; a `complete` runs the `finally` block,
which clears the latch whether the body succeeded or threw. -/
def stepRender (s : RenderState) (e : TreeRenderEvent) : RenderState :=
  match e with
  | .request =>
      if s.isRenderingTree then s
      else { isRenderingTree := true, rendersStarted := s.rendersStarted + 1 }
  | .complete _ => { s with isRenderingTree := false }

/-- Run the scheduler over a sequence of interleaved events. -/
def runRender (s : RenderState) (es : List TreeRenderEvent) : RenderState :=
  es.foldl stepRender s

/-!
## Delayed re-render at open (src/main.ts lines 209-215)

`onOpen` executes

  this.register(() => {
    const timeoutId = window.setTimeout(() => { this.renderFileTree() ... }, 1000);
    return () => window.clearTimeout(timeoutId);
  });

`Component.register(cb)` registers `cb` to be invoked when the component
unloads (view close); it does not invoke `cb` at registration time, and it
ignores `cb`'s return value.  We model the timer-related lifecycle state of
the view: the unload callbacks registered so far and the number of pending
`setTimeout` timers that would fire `renderFileTree`.
-/

/-- The one unload action the delayed-re-render code can register: the
closure that calls `window.setTimeout(renderFileTree, 1000)`. -/
inductive UnloadAction where
  | scheduleDelayedTreeRender
deriving DecidableEq, Repr

/-- Timer-related lifecycle state of the view. -/
structure ViewTimers where
  pendingTreeRenderTimers : Nat
  unloadCallbacks : List UnloadAction
deriving DecidableEq, Repr

/-- Model of `Component.register`: store the callback to be run at unload. -/
def componentRegisterCb (v : ViewTimers) (a : UnloadAction) : ViewTimers :=
  { v with unloadCallbacks := v.unloadCallbacks ++ [a] }

/-- Running one registered unload callback.  The callback of lines 210-215
calls `window.setTimeout(..., 1000)`, creating one pending timer (its own
returned clear-timeout closure is discarded by `register`). -/
def runUnloadAction (v : ViewTimers) (a : UnloadAction) : ViewTimers :=
  match a with
  | .scheduleDelayedTreeRender =>
      { v with pendingTreeRenderTimers := v.pendingTreeRenderTimers + 1 }

/-- The timer-relevant effect of `onOpen` (src/main.ts 209-215): it only
registers the closure with `this.register`; no timer is created yet. -/
def onOpenTimerSetup (v : ViewTimers) : ViewTimers :=
  componentRegisterCb v .scheduleDelayedTreeRender

/-- Unloading the view runs every registered unload callback. -/
def onUnloadRun (v : ViewTimers) : ViewTimers :=
  v.unloadCallbacks.foldl runUnloadAction { v with unloadCallbacks := [] }

/-- The view's timer state before `onOpen`: no timers, no callbacks. -/
def initialViewTimers : ViewTimers :=
  { pendingTreeRenderTimers := 0, unloadCallbacks := [] }

/-!
## Hierarchy validator and drop handling (src/main.ts 375-387, 742-806)

A vault path is its list of slash-separated segments; the root is `[]`.
-/

/-- A slash-delimited vault path, as its list of segments. -/
abbrev VaultPath := List String

/-- Parent folder of a vault entry: drop the last path segment; the root
has no parent (`TFolder.parent` is `null` for the vault root). -/
def parentPath : VaultPath → Option VaultPath
  | [] => none
  | p => some p.dropLast

/-- Mirror of `isDescendantOf` (src/main.ts 375-387): walk
`possibleDescendant`'s parent chain, returning `true` as soon as the
current folder equals `possibleAncestor`, and `false` once the chain is
exhausted above the root.  Note the walk starts at `possibleDescendant`
itself, so `isDescendantOf p p = true`. -/
def isDescendantOf (possibleDescendant possibleAncestor : VaultPath) : Bool :=
  if possibleDescendant = possibleAncestor then true
  else if possibleDescendant = [] then false
  else isDescendantOf possibleDescendant.dropLast possibleAncestor
termination_by possibleDescendant.length
decreasing_by
  rename_i _ h2
  have hpos : 0 < possibleDescendant.length := List.length_pos.mpr h2
  simp [List.length_dropLast]
  omega

/-- Validation outcome of a proposed folder move, in the order the checks
appear in the `drop` handler (src/main.ts 755-775). -/
inductive MoveCheck where
  | selfMove
  | intoDescendant
  | noOp
  | ok
deriving DecidableEq, Repr

/-- The folder-drop validation sequence of the `drop` handler
(src/main.ts 757-774): self-move first, then into-descendant (the drop
target `item` is a descendant of the dragged folder), then no-op (the
dragged folder's parent is already the target). -/
def canMoveFolder (draggedItem item : VaultPath) : MoveCheck :=
  if draggedItem = item then .selfMove
  else if isDescendantOf item draggedItem then .intoDescendant
  else if parentPath draggedItem = some item then .noOp
  else .ok

/-- Observable outcome of a drop: a user-visible `Notice` with no store
call, a silent return with no store call, or a `vault.rename` issued to
the store with the given source and destination paths. -/
inductive DropOutcome where
  | notice (msg : String)
  | silentReturn
  | renameIssued (src dst : VaultPath)
deriving DecidableEq, Repr

/-- Last segment of a path (the entry's `name`), `""` for the root. -/
def lastSegment (p : VaultPath) : String := p.getLast? |>.getD ""

/-- Mirror of the folder branch of `handleDrop` (src/main.ts 755-785):
each rejected validation shows a `Notice` and returns before any
`vault.rename`; otherwise the move `draggedItem -> item.path/name` is
issued to the store. -/
def handleFolderDrop (draggedItem item : VaultPath) : DropOutcome :=
  match canMoveFolder draggedItem item with
  | .selfMove => .notice "Cannot move a folder into itself"
  | .intoDescendant => .notice "Cannot move a folder into one of its subfolders"
  | .noOp => .notice "Folder is already in this location"
  | .ok => .renameIssued draggedItem (item ++ [lastSegment draggedItem])

/-- Mirror of the file branch of `handleDrop` (src/main.ts 787-802):
a file already in the target folder returns silently (no `Notice`, no
rename); otherwise the move is issued to the store. -/
def handleFileDrop (draggedItem item : VaultPath) : DropOutcome :=
  if parentPath draggedItem = some item then .silentReturn
  else .renameIssued draggedItem (item ++ [lastSegment draggedItem])

/-!
## Collapse toggle (src/main.ts 476-490)

The caret click handler reads the current collapsed state from the DOM
class `ftp-collapsed` on the folder's content element (which `renderFolder`
set from `collapsedFolders.has(item.path)`, lines 455 and 567-569),
computes `willBeCollapsed` as its negation, toggles the DOM classes, and
adds or deletes `item.path` in the `collapsedFolders` set.  The JS `Set`
holds no duplicates (it is built by `new Set(...)` and only mutated by
`add`/`delete`), so we model it as a duplicate-free list: `add` appends
when absent and `delete` removes the path.
-/

/-- State of one rendered folder row: the `ftp-collapsed` DOM class on its
content element, and the view's `collapsedFolders` set. -/
structure CaretState where
  contentCollapsed : Bool
  collapsedFolders : List String
deriving DecidableEq, Repr

/-- JS `Set.add`: no effect when the element is already present. -/
def jsSetAdd (l : List String) (p : String) : List String :=
  if l.contains p then l else l ++ [p]

/-- JS `Set.delete`: the element is no longer present afterwards (on the
duplicate-free lists that model JS sets, removing every copy coincides
with removing the single entry). -/
def jsSetDelete (l : List String) (p : String) : List String :=
  l.filter (fun q => q ≠ p)

/-- Mirror of the caret click handler (src/main.ts 476-490):
`willBeCollapsed := !hasClass`, toggle the DOM class to `willBeCollapsed`,
and add/delete `path` in `collapsedFolders` accordingly. -/
def caretClick (st : CaretState) (path : String) : CaretState :=
  let willBeCollapsed := !st.contentCollapsed
  { contentCollapsed := willBeCollapsed
    collapsedFolders :=
      if willBeCollapsed then jsSetAdd st.collapsedFolders path
      else jsSetDelete st.collapsedFolders path }

/-!
## Sort engine (`sortFiles`, src/main.ts 999-1020) and tree folder order
(`renderFolder`, src/main.ts 446-452)

`TFile` carries a basename and `stat` timestamps; `TFolder` carries a
name.  JS `Array.prototype.sort(cmp)` is stable (ES2019), modelled by
`List.mergeSort` with `le a b := cmp a b ≤ 0`; `localeCompare` is modelled
by the total order on strings.
-/

/-- The fields of `TFile` the sort engine reads: `basename` and the
`stat.mtime` / `stat.ctime` timestamps (epoch milliseconds). -/
structure FileNode where
  basename : String
  mtime : Nat
  ctime : Nat
deriving DecidableEq, Repr

/-- The field of `TFolder` the tree render reads for ordering. -/
structure FolderNode where
  name : String
deriving DecidableEq, Repr

/-- A child of a `TFolder`: either a subfolder or a file
(`instanceof TFolder` / `instanceof TFile`). -/
inductive VaultEntry where
  | folder (f : FolderNode)
  | file (f : FileNode)
deriving DecidableEq, Repr

/-- Mirror of `sortFiles` (src/main.ts 999-1020): one stable sort per
`sortOrder`, with the comparator of the corresponding `case`. -/
def sortFiles (order : SortOrder) (files : List FileNode) : List FileNode :=
  match order with
  | .nameAsc => files.mergeSort (fun a b => decide (a.basename ≤ b.basename))
  | .nameDesc => files.mergeSort (fun a b => decide (b.basename ≤ a.basename))
  | .modifiedNew => files.mergeSort (fun a b => decide (b.mtime ≤ a.mtime))
  | .modifiedOld => files.mergeSort (fun a b => decide (a.mtime ≤ b.mtime))
  | .createdNew => files.mergeSort (fun a b => decide (b.ctime ≤ a.ctime))
  | .createdOld => files.mergeSort (fun a b => decide (a.ctime ≤ b.ctime))

/-- Mirror of the sibling-folder ordering of `renderFolder`
(src/main.ts 446-452): filter the children to folders and sort them by
`a.name.localeCompare(b.name)` ascending.  The plugin data (which holds
`sortOrder`) is in scope in the method via `this.plugin.data`, so it is a
parameter here; the source never reads it on this path. -/
def renderFolderSiblings (_data : FileTreePreviewData) (children : List VaultEntry) :
    List FolderNode :=
  (children.filterMap (fun e => match e with
    | .folder f => some f
    | .file _ => none)).mergeSort (fun a b => decide (a.name ≤ b.name))

/-- Mirror of one sort-menu `onClick` handler (src/main.ts 844-851): set
`plugin.data.sortOrder`, persist, and re-run only `renderPreview` (the
tree pass is not re-run on this path). -/
inductive RenderPass where
  | tree
  | preview
deriving DecidableEq, Repr

/-- The state update and the render passes triggered by choosing a sort
order in the preview header's sort menu. -/
def updateSortAction (d : FileTreePreviewData) (o : SortOrder) :
    FileTreePreviewData × List RenderPass :=
  ({ d with sortOrder := o }, [RenderPass.preview])

/-!
## Text extractor (`extractPreviewText`, src/main.ts 1336-1383)

The extractor is a chain of JS string operations and regex replacements.
Strings are processed as `List Char`.  `String.prototype.trim` and the
regex class `\s` use the JS whitespace set (`isJsSpace`).  The multiline
patterns `^[\w-]+::.+$` and `^\|?[\s|\-:]+\|?\s*$` are confined to single
lines (every matched character and anchor sits between two newlines), so
they are applied line-wise; the patterns `^#+\s` and `^[>\-*+]\s`, whose
final `\s` may consume the line's own terminating newline, are applied by
a left-to-right scan over the whole text that tracks line starts, exactly
as a global multiline regex replace does; the remaining patterns have no
anchors and `.` does not cross newlines, so they are applied by a
left-to-right scan with non-greedy (shortest-first) inner groups and
continuation after each match, as JS `String.replace` with `/g` does.
The scanners carry a fuel argument; every recursive call consumes at least
one character of the remaining text, so the initial fuel `length + 1` is
never exhausted. -/

/-- JS whitespace (the `WhiteSpace` and `LineTerminator` productions used
by `String.prototype.trim` and the regex class `\s`). -/
def isJsSpace (c : Char) : Bool :=
  c = ' ' || c = '\t' || c = '\n' || c = '\r' ||
  c = Char.ofNat 0x0B || c = Char.ofNat 0x0C ||
  c = Char.ofNat 0xA0 || c = Char.ofNat 0x1680 ||
  (0x2000 ≤ c.toNat && c.toNat ≤ 0x200A) ||
  c = Char.ofNat 0x2028 || c = Char.ofNat 0x2029 ||
  c = Char.ofNat 0x202F || c = Char.ofNat 0x205F ||
  c = Char.ofNat 0x3000 || c = Char.ofNat 0xFEFF

/-- JS `String.prototype.trim`. -/
def jsTrim (s : List Char) : List Char :=
  ((s.dropWhile isJsSpace).reverse.dropWhile isJsSpace).reverse

/-- JS `text.split("\n")`. -/
def splitLines : List Char → List (List Char)
  | [] => [[]]
  | c :: rest =>
    match splitLines rest with
    | [] => [[c]]
    | l :: ls => if c = '\n' then [] :: l :: ls else (c :: l) :: ls

/-- JS `lines.join(sep)`. -/
def joinWith (sep : List Char) (ls : List (List Char)) : List Char :=
  List.intercalate sep ls

/-- The front-matter scan of src/main.ts 1343-1349: search the lines after
the first for one whose trimmed content is `---`, returning the lines
after it when found. -/
def closingFenceSplit : List (List Char) → Option (List (List Char))
  | [] => none
  | l :: ls => if jsTrim l = ['-', '-', '-'] then some ls else closingFenceSplit ls

/-- Mirror of the front-matter removal (src/main.ts 1340-1354): only when
the text starts with `---` and some later line trims to `---` is
everything up to and including that closing line discarded (and the
remainder trimmed); otherwise the text is returned unchanged. -/
def stripFrontMatter (text : List Char) : List Char :=
  if List.isPrefixOf ['-', '-', '-'] text then
    match splitLines text with
    | [] => text
    | _ :: rest =>
      match closingFenceSplit rest with
      | some after => jsTrim (joinWith ['\n'] after)
      | none => text
  else text

/-- The regex class `[\w-]`. -/
def isWordHyphen (c : Char) : Bool :=
  c.isAlpha || c.isDigit || c = '_' || c = '-'

/-- Whether a (newline-free) line matches `^[\w-]+::.+$`: a nonempty run
of word-or-hyphen characters, then `::`, then at least one character.
Since `:` is outside the class, the only candidate split is at the end of
the maximal class run. -/
def isInlinePropLine (l : List Char) : Bool :=
  let m := (l.takeWhile isWordHyphen).length
  match l.drop m with
  | ':' :: ':' :: rest => decide (1 ≤ m) && !rest.isEmpty
  | _ => false

/-- Whether a (newline-free) line matches `^\|?[\s|\-:]+\|?\s*$`: since
`|` and whitespace also belong to the inner class, this is exactly the
nonempty lines consisting only of whitespace, pipes, dashes and colons. -/
def isTableSepLine (l : List Char) : Bool :=
  !l.isEmpty && l.all (fun c => isJsSpace c || c = '|' || c = '-' || c = ':')

/-- Replace every line matching the given predicate by the empty line
(the effect of `String.replace` with an `^...$`-anchored `/gm` pattern and
replacement `""`). -/
def dropMatchingLines (p : List Char → Bool) (text : List Char) : List Char :=
  joinWith ['\n'] ((splitLines text).map (fun l => if p l then [] else l))

/-- Try `#+\s` at the current position: a nonempty run of `#` followed by
one whitespace character (possibly the newline).  Returns the whitespace
character and the text after the match. -/
def headerConsume (s : List Char) : Option (Char × List Char) :=
  let hs := (s.takeWhile (fun c => c = '#')).length
  if 1 ≤ hs then
    match s.drop hs with
    | c :: rest => if isJsSpace c then some (c, rest) else none
    | [] => none
  else none

/-- Global multiline replace of `^#+\s` by the empty string: scan the text
left to right, attempting the pattern at every line start. -/
def stripHeadersGo : Nat → Bool → List Char → List Char
  | 0, _, s => s
  | _ + 1, _, [] => []
  | fuel + 1, atStart, c :: rest =>
    if atStart then
      match headerConsume (c :: rest) with
      | some (ws, rest2) => stripHeadersGo fuel (ws = '\n') rest2
      | none => c :: stripHeadersGo fuel (c = '\n') rest
    else c :: stripHeadersGo fuel (c = '\n') rest

/-- The replace `text.replace(/^#+\s/gm, "")` of src/main.ts 1364. -/
def stripHeaders (s : List Char) : List Char :=
  stripHeadersGo (s.length + 1) true s

/-- Try `[>\-*+]\s` at the current position: one marker character followed
by one whitespace character (possibly the newline). -/
def listMarkerConsume (s : List Char) : Option (Char × List Char) :=
  match s with
  | c :: d :: rest =>
    if (c = '>' || c = '-' || c = '*' || c = '+') && isJsSpace d then
      some (d, rest)
    else none
  | _ => none

/-- Global multiline replace of `^[>\-*+]\s` by the empty string. -/
def stripListMarkersGo : Nat → Bool → List Char → List Char
  | 0, _, s => s
  | _ + 1, _, [] => []
  | fuel + 1, atStart, c :: rest =>
    if atStart then
      match listMarkerConsume (c :: rest) with
      | some (ws, rest2) => stripListMarkersGo fuel (ws = '\n') rest2
      | none => c :: stripListMarkersGo fuel (c = '\n') rest
    else c :: stripListMarkersGo fuel (c = '\n') rest

/-- The replace `text.replace(/^[>\-*+]\s/gm, "")` of src/main.ts 1367. -/
def stripListMarkers (s : List Char) : List Char :=
  stripListMarkersGo (s.length + 1) true s

/-- Non-greedy inner group of `\*\*(.+?)\*\*`: consume characters one at a
time (never a newline), checking after each whether `**` follows. -/
def boldInner : List Char → List Char → Option (List Char × List Char)
  | _, [] => none
  | acc, c :: rest =>
    if c = '\n' then none
    else
      match rest with
      | '*' :: '*' :: rest2 => some (acc ++ [c], rest2)
      | _ => boldInner (acc ++ [c]) rest

/-- Try `\*\*(.+?)\*\*` at the current position, returning the inner text
and the text after the match. -/
def boldConsume (s : List Char) : Option (List Char × List Char) :=
  match s with
  | '*' :: '*' :: rest => boldInner [] rest
  | _ => none

/-- Global replace of `\*\*(.+?)\*\*` by the inner group. -/
def replaceBoldGo : Nat → List Char → List Char
  | 0, s => s
  | _ + 1, [] => []
  | fuel + 1, c :: rest =>
    match boldConsume (c :: rest) with
    | some (inner, rest2) => inner ++ replaceBoldGo fuel rest2
    | none => c :: replaceBoldGo fuel rest

/-- The replace `text.replace(/\*\*(.+?)\*\*/g, "$1")` of src/main.ts 1365. -/
def replaceBold (s : List Char) : List Char :=
  replaceBoldGo (s.length + 1) s

/-- Non-greedy inner group of `\*(.+?)\*`. -/
def italicInner : List Char → List Char → Option (List Char × List Char)
  | _, [] => none
  | acc, c :: rest =>
    if c = '\n' then none
    else
      match rest with
      | '*' :: rest2 => some (acc ++ [c], rest2)
      | _ => italicInner (acc ++ [c]) rest

/-- Try `\*(.+?)\*` at the current position. -/
def italicConsume (s : List Char) : Option (List Char × List Char) :=
  match s with
  | '*' :: rest => italicInner [] rest
  | _ => none

/-- Global replace of `\*(.+?)\*` by the inner group. -/
def replaceItalicGo : Nat → List Char → List Char
  | 0, s => s
  | _ + 1, [] => []
  | fuel + 1, c :: rest =>
    match italicConsume (c :: rest) with
    | some (inner, rest2) => inner ++ replaceItalicGo fuel rest2
    | none => c :: replaceItalicGo fuel rest

/-- The replace `text.replace(/\*(.+?)\*/g, "$1")` of src/main.ts 1366. -/
def replaceItalic (s : List Char) : List Char :=
  replaceItalicGo (s.length + 1) s

/-- Non-greedy inner group of `\[\[(.+?)\]\]`. -/
def wikiInner : List Char → List Char → Option (List Char × List Char)
  | _, [] => none
  | acc, c :: rest =>
    if c = '\n' then none
    else
      match rest with
      | ']' :: ']' :: rest2 => some (acc ++ [c], rest2)
      | _ => wikiInner (acc ++ [c]) rest

/-- Try `\[\[(.+?)\]\]` at the current position. -/
def wikiConsume (s : List Char) : Option (List Char × List Char) :=
  match s with
  | '[' :: '[' :: rest => wikiInner [] rest
  | _ => none

/-- Global replace of `\[\[(.+?)\]\]` by the inner group. -/
def replaceWikiLinksGo : Nat → List Char → List Char
  | 0, s => s
  | _ + 1, [] => []
  | fuel + 1, c :: rest =>
    match wikiConsume (c :: rest) with
    | some (inner, rest2) => inner ++ replaceWikiLinksGo fuel rest2
    | none => c :: replaceWikiLinksGo fuel rest

/-- The replace `text.replace(/\[\[(.+?)\]\]/g, "$1")` of src/main.ts 1373. -/
def replaceWikiLinks (s : List Char) : List Char :=
  replaceWikiLinksGo (s.length + 1) s

/-- The `\(.+?\)` tail of the markdown-link pattern: one or more
characters (never a newline) followed by `)`, shortest first.  Returns the
text after the closing parenthesis. -/
def mdLinkTail : List Char → Option (List Char)
  | [] => none
  | c :: rest =>
    if c = '\n' then none
    else
      match rest with
      | ')' :: rest2 => some rest2
      | _ => mdLinkTail rest

/-- Non-greedy first group of `\[(.+?)\]\(.+?\)` with backtracking: after
each consumed character, if `](` follows and the parenthesised tail
matches, the match succeeds; otherwise (including when the tail fails) the
group keeps extending. -/
def mdInner1 : List Char → List Char → Option (List Char × List Char)
  | _, [] => none
  | acc, c :: rest =>
    if c = '\n' then none
    else
      match rest with
      | ']' :: '(' :: rest2 =>
        match mdLinkTail rest2 with
        | some rest3 => some (acc ++ [c], rest3)
        | none => mdInner1 (acc ++ [c]) rest
      | _ => mdInner1 (acc ++ [c]) rest

/-- Try `\[(.+?)\]\(.+?\)` at the current position. -/
def mdLinkConsume (s : List Char) : Option (List Char × List Char) :=
  match s with
  | '[' :: rest => mdInner1 [] rest
  | _ => none

/-- Global replace of `\[(.+?)\]\(.+?\)` by the first group. -/
def replaceMdLinksGo : Nat → List Char → List Char
  | 0, s => s
  | _ + 1, [] => []
  | fuel + 1, c :: rest =>
    match mdLinkConsume (c :: rest) with
    | some (inner, rest2) => inner ++ replaceMdLinksGo fuel rest2
    | none => c :: replaceMdLinksGo fuel rest

/-- The replace `text.replace(/\[(.+?)\]\(.+?\)/g, "$1")` of src/main.ts 1374. -/
def replaceMdLinks (s : List Char) : List Char :=
  replaceMdLinksGo (s.length + 1) s

/-- Mirror of `extractPreviewText` (src/main.ts 1336-1383): trim, strip
front matter, drop inline-property lines, drop table-separator lines,
strip heading markers, bold, italic, list/blockquote markers and pipes,
conditionally strip the two link bracket forms, then re-trim, drop blank
lines and join the remaining lines with single spaces. -/
def extractPreviewText (data : FileTreePreviewData) (content : String) : String :=
  let text0 := jsTrim content.data
  let text1 := stripFrontMatter text0
  let text2 := dropMatchingLines isInlinePropLine text1
  let text3 := dropMatchingLines isTableSepLine text2
  let text4 := stripHeaders text3
  let text5 := replaceBold text4
  let text6 := replaceItalic text5
  let text7 := stripListMarkers text6
  let text8 := text7.map (fun c => if c = '|' then ' ' else c)
  let text9 :=
    if data.removeLinkBrackets then replaceMdLinks (replaceWikiLinks text8)
    else text8
  let text10 := jsTrim text9
  String.mk (joinWith [' '] ((splitLines text10).filter (fun l => !(jsTrim l).isEmpty)))

/-!
## Helper lemmas
-/

/-- The parent-chain walk accepts its own starting folder. -/
theorem isDescendantOf_refl (p : VaultPath) : isDescendantOf p p = true := by
  rw [isDescendantOf]; simp

/-- The parent-chain walk of `isDescendantOf` finds every proper ancestor:
appending a nonempty segment list to `f` yields a path whose chain passes
through `f`. -/
theorem isDescendantOf_append (f : VaultPath) :
    ∀ r : List String, r ≠ [] → isDescendantOf (f ++ r) f = true := by
  intro r
  induction r using List.reverseRecOn with
  | nil => intro h; exact absurd rfl h
  | append_singleton l a ih =>
    intro _
    have h1 : f ++ (l ++ [a]) ≠ f := by
      intro heq
      have hlen := congrArg List.length heq
      simp at hlen
    have h2 : f ++ (l ++ [a]) ≠ ([] : List String) := by simp
    rw [isDescendantOf, if_neg h1, if_neg h2, ← List.append_assoc, List.dropLast_concat]
    rcases eq_or_ne l [] with hl | hl
    · subst hl; simpa using isDescendantOf_refl f
    · exact ih hl

/-- The parent-chain walk only ever shortens the path, so a successful
walk implies the ancestor's path is no longer than the descendant's. -/
theorem isDescendantOf_length_le_aux :
    ∀ (n : Nat) (d a : VaultPath), d.length ≤ n → isDescendantOf d a = true →
      a.length ≤ d.length := by
  intro n
  induction n with
  | zero =>
    intro d a hd h
    have hdnil : d = [] := List.eq_nil_of_length_eq_zero (Nat.le_zero.mp hd)
    subst hdnil
    rw [isDescendantOf] at h
    split at h
    · rename_i heq; rw [← heq]
    · simp at h
  | succ n ih =>
    intro d a hd h
    rw [isDescendantOf] at h
    split at h
    · rename_i heq; rw [heq]
    · split at h
      · simp at h
      · rename_i hne hnil
        have hlt : d.dropLast.length ≤ n := by
          have hpos : 0 < d.length := List.length_pos.mpr hnil
          simp [List.length_dropLast]
          omega
        have hrec := ih d.dropLast a hlt h
        have hdl : d.dropLast.length ≤ d.length := by
          simp [List.length_dropLast]
        omega

/-- Length bound extracted from a successful parent-chain walk. -/
theorem isDescendantOf_length_le (d a : VaultPath) (h : isDescendantOf d a = true) :
    a.length ≤ d.length :=
  isDescendantOf_length_le_aux d.length d a (le_refl _) h

/-- Membership after `jsSetAdd`: the added path is present. -/
theorem mem_jsSetAdd_self (l : List String) (p : String) : p ∈ jsSetAdd l p := by
  simp only [jsSetAdd]
  split
  · rename_i hc
    simpa using hc
  · simp

/-- Membership after `jsSetAdd`: other paths are untouched. -/
theorem mem_jsSetAdd_iff (l : List String) (p q : String) (h : q ≠ p) :
    q ∈ jsSetAdd l p ↔ q ∈ l := by
  simp only [jsSetAdd]
  split
  · exact Iff.rfl
  · simp [h]

/-- Membership after `jsSetDelete`: the deleted path is gone. -/
theorem not_mem_jsSetDelete_self (l : List String) (p : String) :
    p ∉ jsSetDelete l p := by
  simp [jsSetDelete]

/-- Membership after `jsSetDelete`: other paths are untouched. -/
theorem mem_jsSetDelete_iff (l : List String) (p q : String) (h : q ≠ p) :
    q ∈ jsSetDelete l p ↔ q ∈ l := by
  simp [jsSetDelete, List.mem_filter, h]

/-!
## Claim theorems
-/

/-- C1: while the `isRenderingTree` token is held, a further
`renderFileTree` call returns without starting any render work (the
request is dropped, not queued); the token is released by the `finally`
block on the success path and on the error path alike; and two
`renderFileTree` calls arriving before the first completes start exactly
one render body, leaving the token released. -/
theorem renderFileTree_single_flight :
    (∀ s : RenderState, s.isRenderingTree = true → stepRender s .request = s)
    ∧ (∀ (s : RenderState) (success : Bool),
        (stepRender s (.complete success)).isRenderingTree = false)
    ∧ (∀ (s : RenderState) (success : Bool), s.isRenderingTree = false →
        runRender s [.request, .request, .complete success]
          = { isRenderingTree := false, rendersStarted := s.rendersStarted + 1 }) := by
  refine ⟨?_, ?_, ?_⟩
  · intro s hs
    simp [stepRender, hs]
  · intro s success
    simp [stepRender]
  · intro s success hs
    simp [runRender, stepRender, hs]

/-- Witness for C1 at concrete scheduler states. -/
theorem renderFileTree_single_flight_witness :
    stepRender ⟨true, 5⟩ .request = ⟨true, 5⟩
    ∧ (stepRender ⟨true, 5⟩ (.complete false)).isRenderingTree = false
    ∧ runRender ⟨false, 0⟩ [.request, .request, .complete false]
        = { isRenderingTree := false, rendersStarted := 1 } :=
  ⟨renderFileTree_single_flight.1 ⟨true, 5⟩ rfl,
   renderFileTree_single_flight.2.1 ⟨true, 5⟩ false,
   renderFileTree_single_flight.2.2 ⟨false, 0⟩ false rfl⟩

/-- C2 counterexample: on the unterminated-front-matter input
`"---\ntitle: X\nHello"` the extractor's output contains no dash at all
(with the bracket-removal flag either way), so the opening `---` line is
not retained in the output, contrary to the claim. -/
theorem extractPreviewText_unterminated_frontmatter_cex :
    (extractPreviewText { DEFAULT_DATA with removeLinkBrackets := true }
        "---\ntitle: X\nHello").data.contains '-' = false
    ∧ (extractPreviewText { DEFAULT_DATA with removeLinkBrackets := false }
        "---\ntitle: X\nHello").data.contains '-' = false :=
  ⟨rfl, rfl⟩

/-- C2 amended: front-matter removal is indeed all-or-nothing — with no
closing fence the front-matter stage strips nothing, retaining the opening
`---` line — but the subsequent table-separator rule matches the `---`
line (it consists only of dashes) and deletes it, so the final output of
`extractPreviewText` on `"---\ntitle: X\nHello"` is `"title: X Hello"`,
without the `---` line. -/
theorem extractPreviewText_unterminated_frontmatter_amended :
    stripFrontMatter ("---\ntitle: X\nHello".data) = "---\ntitle: X\nHello".data
    ∧ isTableSepLine ("---".data) = true
    ∧ extractPreviewText { DEFAULT_DATA with removeLinkBrackets := true }
        "---\ntitle: X\nHello" = "title: X Hello"
    ∧ extractPreviewText { DEFAULT_DATA with removeLinkBrackets := false }
        "---\ntitle: X\nHello" = "title: X Hello" :=
  ⟨rfl, rfl, rfl, rfl⟩

/-- C3 (code bug): `onOpen` wraps the `setTimeout` call inside a
`this.register(...)` unload callback, so completing `onOpen` schedules no
delayed tree re-render at all — the one-shot timer is only created when
the view unloads, after which its render fires with the view closed. -/
theorem onOpen_delayed_rerender_not_scheduled :
    (onOpenTimerSetup initialViewTimers).pendingTreeRenderTimers = 0
    ∧ (onUnloadRun (onOpenTimerSetup initialViewTimers)).pendingTreeRenderTimers = 1 :=
  ⟨rfl, rfl⟩

/-- C4: for every folder `f` and every proper descendant `f ++ r`
(`r ≠ []`, any depth), the parent-chain walk finds `f`, the drop
validation rejects with the into-descendant reason, and the drop handler
shows the corresponding notice without issuing any rename to the store;
the walk is a total function on paths, so it terminates on every input. -/
theorem canMoveFolder_into_descendant (f : VaultPath) (r : List String) (hr : r ≠ []) :
    isDescendantOf (f ++ r) f = true
    ∧ canMoveFolder f (f ++ r) = .intoDescendant
    ∧ handleFolderDrop f (f ++ r)
        = .notice "Cannot move a folder into one of its subfolders" := by
  have hdesc := isDescendantOf_append f r hr
  have hne : f ≠ f ++ r := by
    intro heq
    have hlen := congrArg List.length heq
    simp [List.length_append] at hlen
    exact hr hlen
  refine ⟨hdesc, ?_, ?_⟩
  · simp [canMoveFolder, hne, hdesc]
  · simp [handleFolderDrop, canMoveFolder, hne, hdesc]

/-- Witness for C4: dropping folder `A` onto its grandchild `A/B/C`. -/
theorem canMoveFolder_into_descendant_witness :
    (["B", "C"] : List String) ≠ []
    ∧ (isDescendantOf (["A"] ++ ["B", "C"]) ["A"] = true
      ∧ canMoveFolder ["A"] (["A"] ++ ["B", "C"]) = .intoDescendant
      ∧ handleFolderDrop ["A"] (["A"] ++ ["B", "C"])
          = .notice "Cannot move a folder into one of its subfolders") :=
  ⟨by decide, canMoveFolder_into_descendant ["A"] ["B", "C"] (by decide)⟩

/-- C5: dropping any folder onto itself is rejected with the self-move
reason and a notice, with no rename reaching the store; the self-move
check takes priority — it fires even though the parent-chain walk would
also classify `f` as a descendant of itself. -/
theorem canMoveFolder_self_move (f : VaultPath) :
    canMoveFolder f f = .selfMove
    ∧ handleFolderDrop f f = .notice "Cannot move a folder into itself"
    ∧ isDescendantOf f f = true := by
  refine ⟨?_, ?_, isDescendantOf_refl f⟩
  · simp [canMoveFolder]
  · simp [handleFolderDrop, canMoveFolder]

/-- C6: an item whose current parent already equals the destination is
rejected as a no-op — for folders with a notice, for files with a silent
return — and no rename is issued; and for files this is the only rejection
reason: whenever the parent differs, the file drop always issues the
rename. -/
theorem canMove_current_parent_noOp :
    (∀ item target : VaultPath, parentPath item = some target →
      canMoveFolder item target = .noOp
      ∧ handleFolderDrop item target = .notice "Folder is already in this location"
      ∧ handleFileDrop item target = .silentReturn)
    ∧ (∀ item target : VaultPath, parentPath item ≠ some target →
      handleFileDrop item target = .renameIssued item (target ++ [lastSegment item])) := by
  constructor
  · intro item target hp
    have hnil : item ≠ [] := by
      intro he
      subst he
      simp [parentPath] at hp
    have htgt : target = item.dropLast := by
      cases item with
      | nil => exact absurd rfl hnil
      | cons x xs =>
        simp [parentPath] at hp
        exact hp.symm
    have hlen : target.length < item.length := by
      subst htgt
      have hpos : 0 < item.length := List.length_pos.mpr hnil
      simp [List.length_dropLast]
      omega
    have hne : item ≠ target := by
      intro he
      have := congrArg List.length he
      omega
    have hdesc : isDescendantOf target item = false := by
      cases hd : isDescendantOf target item with
      | false => rfl
      | true =>
        have := isDescendantOf_length_le target item hd
        omega
    refine ⟨?_, ?_, ?_⟩
    · simp [canMoveFolder, hne, hdesc, hp]
    · simp [handleFolderDrop, canMoveFolder, hne, hdesc, hp]
    · simp [handleFileDrop, hp]
  · intro item target hnp
    simp [handleFileDrop, hnp]

/-- Witness for C6: the file or folder `A/x` dropped onto its own parent
`A` (rejected, nothing issued) and onto the unrelated folder `B` (rename
issued). -/
theorem canMove_current_parent_noOp_witness :
    parentPath ["A", "x"] = some ["A"]
    ∧ canMoveFolder ["A", "x"] ["A"] = .noOp
    ∧ handleFolderDrop ["A", "x"] ["A"] = .notice "Folder is already in this location"
    ∧ handleFileDrop ["A", "x"] ["A"] = .silentReturn
    ∧ parentPath ["A", "x"] ≠ some ["B"]
    ∧ handleFileDrop ["A", "x"] ["B"]
        = .renameIssued ["A", "x"] (["B"] ++ [lastSegment ["A", "x"]]) := by
  have h1 := canMove_current_parent_noOp.1 ["A", "x"] ["A"] (by decide)
  have h2 := canMove_current_parent_noOp.2 ["A", "x"] ["B"] (by decide)
  exact ⟨by decide, h1.1, h1.2.1, h1.2.2, by decide, h2⟩

/-- C7: under the render-time invariant that the row's collapsed DOM class
mirrors the collapse set's membership of its path, one caret click flips
the membership of exactly the clicked path (all other paths keep their
membership), and two caret clicks in succession restore the collapse set's
membership for every path. -/
theorem caretClick_toggle (st : CaretState) (p : String)
    (h : st.contentCollapsed = st.collapsedFolders.contains p) :
    ((caretClick st p).collapsedFolders.contains p = !st.collapsedFolders.contains p)
    ∧ (∀ q, q ≠ p →
        (caretClick st p).collapsedFolders.contains q = st.collapsedFolders.contains q)
    ∧ (∀ q, (caretClick (caretClick st p) p).collapsedFolders.contains q
        = st.collapsedFolders.contains q) := by
  cases hC : st.collapsedFolders.contains p with
  | false =>
    have hcc : st.contentCollapsed = false := by rw [h, hC]
    have hnm : p ∉ st.collapsedFolders := by simpa using hC
    refine ⟨?_, ?_, ?_⟩
    · simp [caretClick, hcc, hC, mem_jsSetAdd_self]
    · intro q hq
      simp [caretClick, hcc, mem_jsSetAdd_iff _ _ _ hq]
    · intro q
      by_cases hq : q = p
      · subst hq
        simp [caretClick, hcc, not_mem_jsSetDelete_self, hnm]
      · simp [caretClick, hcc, mem_jsSetAdd_iff _ _ _ hq,
          mem_jsSetDelete_iff _ _ _ hq]
  | true =>
    have hcc : st.contentCollapsed = true := by rw [h, hC]
    have hm : p ∈ st.collapsedFolders := by simpa using hC
    refine ⟨?_, ?_, ?_⟩
    · simp [caretClick, hcc, hC, not_mem_jsSetDelete_self]
    · intro q hq
      simp [caretClick, hcc, mem_jsSetDelete_iff _ _ _ hq]
    · intro q
      by_cases hq : q = p
      · subst hq
        simp [caretClick, hcc, mem_jsSetAdd_self, hm]
      · simp [caretClick, hcc, mem_jsSetAdd_iff _ _ _ hq,
          mem_jsSetDelete_iff _ _ _ hq]

/-- Witness for C7: toggling path `A` on a row synchronized with a
collapse set containing only `B`. -/
theorem caretClick_toggle_witness :
    ((⟨false, ["B"]⟩ : CaretState).contentCollapsed = (["B"] : List String).contains "A")
    ∧ (caretClick ⟨false, ["B"]⟩ "A").collapsedFolders.contains "A"
        = !((["B"] : List String).contains "A")
    ∧ (caretClick ⟨false, ["B"]⟩ "A").collapsedFolders.contains "B"
        = (["B"] : List String).contains "B"
    ∧ (caretClick (caretClick ⟨false, ["B"]⟩ "A") "A").collapsedFolders.contains "A"
        = (["B"] : List String).contains "A" := by
  have h := caretClick_toggle ⟨false, ["B"]⟩ "A" (by decide)
  exact ⟨by decide, h.1, h.2.1 "B" (by decide), h.2.2 "A"⟩

/-- C8: on any file list with pairwise distinct basenames, sorting with
the name-ascending order and sorting with the name-descending order
produce exactly reversed sequences of each other. -/
theorem sortFiles_nameAsc_reverse_nameDesc (files : List FileNode)
    (h : files.Pairwise (fun a b => a.basename ≠ b.basename)) :
    sortFiles .nameAsc files = (sortFiles .nameDesc files).reverse := by
  have transA : ∀ a b c : FileNode, decide (a.basename ≤ b.basename) = true →
      decide (b.basename ≤ c.basename) = true →
      decide (a.basename ≤ c.basename) = true := by
    intro a b c h1 h2
    simp only [decide_eq_true_eq] at h1 h2 ⊢
    exact le_trans h1 h2
  have totalA : ∀ a b : FileNode,
      (decide (a.basename ≤ b.basename) || decide (b.basename ≤ a.basename)) = true := by
    intro a b
    simpa using le_total a.basename b.basename
  have transD : ∀ a b c : FileNode, decide (b.basename ≤ a.basename) = true →
      decide (c.basename ≤ b.basename) = true →
      decide (c.basename ≤ a.basename) = true := by
    intro a b c h1 h2
    simp only [decide_eq_true_eq] at h1 h2 ⊢
    exact le_trans h2 h1
  have totalD : ∀ a b : FileNode,
      (decide (b.basename ≤ a.basename) || decide (a.basename ≤ b.basename)) = true := by
    intro a b
    simpa using (le_total a.basename b.basename).symm
  have hsortA : (files.mergeSort (fun a b => decide (a.basename ≤ b.basename))).Pairwise
      (fun a b => decide (a.basename ≤ b.basename) = true) :=
    List.sorted_mergeSort transA totalA files
  have hsortD : (files.mergeSort (fun a b => decide (b.basename ≤ a.basename))).Pairwise
      (fun a b => decide (b.basename ≤ a.basename) = true) :=
    List.sorted_mergeSort transD totalD files
  have hpermA := List.mergeSort_perm files (fun a b => decide (a.basename ≤ b.basename))
  have hpermD := List.mergeSort_perm files (fun a b => decide (b.basename ≤ a.basename))
  have hneA : (files.mergeSort (fun a b => decide (a.basename ≤ b.basename))).Pairwise
      (fun a b => a.basename ≠ b.basename) :=
    (hpermA.pairwise_iff (fun hxy => hxy.symm)).mpr h
  have hneD : (files.mergeSort (fun a b => decide (b.basename ≤ a.basename))).Pairwise
      (fun a b => a.basename ≠ b.basename) :=
    (hpermD.pairwise_iff (fun hxy => hxy.symm)).mpr h
  have hstrictA : (files.mergeSort (fun a b => decide (a.basename ≤ b.basename))).Pairwise
      (fun a b => a.basename < b.basename) :=
    (hsortA.and hneA).imp (fun hab =>
      lt_of_le_of_ne (by simpa using hab.1) hab.2)
  have hstrictDrev :
      ((files.mergeSort (fun a b => decide (b.basename ≤ a.basename))).reverse).Pairwise
        (fun a b => a.basename < b.basename) := by
    rw [List.pairwise_reverse]
    exact (hsortD.and hneD).imp (fun hab =>
      lt_of_le_of_ne (by simpa using hab.1) (fun he => hab.2 he.symm))
  have hperm : List.Perm (files.mergeSort (fun a b => decide (a.basename ≤ b.basename)))
      ((files.mergeSort (fun a b => decide (b.basename ≤ a.basename))).reverse) :=
    hpermA.trans (hpermD.symm.trans (List.reverse_perm _).symm)
  haveI : IsAntisymm FileNode (fun a b => a.basename < b.basename) :=
    ⟨fun a b h1 h2 => absurd h2 (not_lt_of_lt h1)⟩
  simpa [sortFiles] using
    List.eq_of_perm_of_sorted (r := fun a b : FileNode => a.basename < b.basename)
      hperm hstrictA hstrictDrev

/-- Witness for C8 on a three-file list with distinct basenames. -/
theorem sortFiles_nameAsc_reverse_nameDesc_witness :
    (([⟨"b", 0, 0⟩, ⟨"a", 1, 1⟩, ⟨"c", 2, 2⟩] : List FileNode).Pairwise
        (fun a b => a.basename ≠ b.basename))
    ∧ sortFiles .nameAsc [⟨"b", 0, 0⟩, ⟨"a", 1, 1⟩, ⟨"c", 2, 2⟩]
        = (sortFiles .nameDesc [⟨"b", 0, 0⟩, ⟨"a", 1, 1⟩, ⟨"c", 2, 2⟩]).reverse :=
  ⟨by decide, sortFiles_nameAsc_reverse_nameDesc _ (by decide)⟩

/-- C9: on `"[[Page One]] and [text](url)"`, the extractor with the
bracket-removal flag enabled keeps only the display text of the two link
forms, yielding `"Page One and text"`; with the flag disabled the
original bracket syntax is preserved verbatim. -/
theorem extractPreviewText_link_brackets :
    extractPreviewText { DEFAULT_DATA with removeLinkBrackets := true }
        "[[Page One]] and [text](url)" = "Page One and text"
    ∧ extractPreviewText { DEFAULT_DATA with removeLinkBrackets := false }
        "[[Page One]] and [text](url)" = "[[Page One]] and [text](url)" :=
  ⟨rfl, rfl⟩

/-- C10: the sibling folders emitted by the tree render are sorted by
ascending name comparison independently of the configured sort order
(same output for any two plugin data records, output sorted by name, and
a permutation of the folder children), and choosing a sort order in the
sort menu updates only the data and re-runs only the preview pass. -/
theorem tree_folder_order_fixed :
    (∀ (d₁ d₂ : FileTreePreviewData) (children : List VaultEntry),
        renderFolderSiblings d₁ children = renderFolderSiblings d₂ children)
    ∧ (∀ (d : FileTreePreviewData) (children : List VaultEntry),
        (renderFolderSiblings d children).Pairwise (fun a b => a.name ≤ b.name))
    ∧ (∀ (d : FileTreePreviewData) (children : List VaultEntry),
        List.Perm (renderFolderSiblings d children)
          (children.filterMap (fun e => match e with
            | .folder f => some f
            | .file _ => none)))
    ∧ (∀ (d : FileTreePreviewData) (o : SortOrder),
        updateSortAction d o = ({ d with sortOrder := o }, [RenderPass.preview])) := by
  refine ⟨?_, ?_, ?_, ?_⟩
  · intro d₁ d₂ children
    rfl
  · intro d children
    have htrans : ∀ a b c : FolderNode, decide (a.name ≤ b.name) = true →
        decide (b.name ≤ c.name) = true → decide (a.name ≤ c.name) = true := by
      intro a b c h1 h2
      simp only [decide_eq_true_eq] at h1 h2 ⊢
      exact le_trans h1 h2
    have htotal : ∀ a b : FolderNode,
        (decide (a.name ≤ b.name) || decide (b.name ≤ a.name)) = true := by
      intro a b
      simpa using le_total a.name b.name
    have hs := List.sorted_mergeSort htrans htotal
      (children.filterMap (fun e => match e with
        | .folder f => some f
        | .file _ => none))
    exact hs.imp (fun hab => by simpa using hab)
  · intro d children
    exact List.mergeSort_perm _ _
  · intro d o
    rfl

end FileTreePreview
